import Mathlib

/-!
Verification development for the cubelib core: a shallow embedding of the
cubie-level cube representation (`src/cubelib/src/cubie.rs`) and of the
finish-step configuration glue
(`src/cubelib/src/puzzles/c333/steps/finish/finish_config.rs`), together with
theorems settling the specification claims about them.

The bit-packed SIMD implementations (`avx2_cubie` / `wasm32_cubie`) and the
shared enum/record declarations (`crate::cube`, `StepConfig`,
`DefaultStepOptions`, `TransitionTable333`) are not part of the sources; where
they are needed they are modelled from the specification, and each such
definition carries a doc comment starting with `Modelled from the spec:`.
-/

/-- Modelled from the spec: facelet colors.  `crate::cube::Color` is not in the
sources; `cubie.rs` uses the variants `White`, `Yellow`, `Green`, `Blue`,
`Orange`, `Red` and `None` (the placeholder used to initialise the facelet
array in `get_facelets`). -/
inductive Color
  | White
  | Yellow
  | Green
  | Blue
  | Orange
  | Red
  | None
deriving DecidableEq, Fintype, Repr

/-- Modelled from the spec: `Face ∈ {U,D,F,B,L,R}` (spec §3), in the spec's
enumeration order, which also matches the facelet blocks of `get_facelets`. -/
inductive Face
  | Up
  | Down
  | Front
  | Back
  | Left
  | Right
deriving DecidableEq, Fintype, Repr

/-- Modelled from the spec: `Direction ∈ {CW, Half, CCW}` (spec §3), named as
in `finish_config.rs` (`Clockwise`, `Half`, `CounterClockwise`). -/
inductive Direction
  | Clockwise
  | Half
  | CounterClockwise
deriving DecidableEq, Fintype, Repr

/-- Modelled from the spec: a `Turn`/`Move` is `(Face, Direction)` (spec §3).
`cubie.rs` destructures it as `Move(face, turn)`. -/
structure Move where
  face : Face
  dir : Direction
deriving DecidableEq, Fintype, Repr

/-- Modelled from the spec: the rotation axes.  `finish_config.rs` uses the
variants `UD`, `FB`, `LR` and the aliases `X`/`Z` of `CubeAxis`. -/
inductive CubeAxis
  | UD
  | FB
  | LR
deriving DecidableEq, Fintype, Repr

/-- Modelled from the spec: alias used by `fr_finish` — the `x` whole-cube
rotation turns about the LR (R-face) axis. -/
def CubeAxis.X : CubeAxis := CubeAxis.LR

/-- Modelled from the spec: alias — the `y` rotation turns about the UD axis. -/
def CubeAxis.Y : CubeAxis := CubeAxis.UD

/-- Modelled from the spec: alias — the `z` rotation turns about the FB axis. -/
def CubeAxis.Z : CubeAxis := CubeAxis.FB

/-- Modelled from the spec: a `Transformation` is `(Axis, Direction)` and
denotes a whole-cube rotation (spec §3). -/
structure Transformation where
  axis : CubeAxis
  dir : Direction
deriving DecidableEq, Fintype, Repr

/-- Modelled from the spec: one edge cubie as surfaced by `get_edges`:
an identity in `0..12` and the three per-axis orientation flags
(`true` = oriented, i.e. not flipped with respect to that axis); `cubie.rs`
reads the field `oriented_fb` in `get_facelets`. -/
structure Edge where
  id : Fin 12
  oriented_ud : Bool
  oriented_fb : Bool
  oriented_rl : Bool
deriving DecidableEq, Fintype, Repr

/-- Modelled from the spec: one corner cubie as surfaced by `get_corners`: an
identity in `0..8` and a UD-perspective twist in `{0,1,2}` (comment in
`cubie.rs`: "3 bits for id, 2 bits free, 3 bits for co (from UD perspective)"). -/
structure Corner where
  id : Fin 8
  orientation : Fin 3
deriving DecidableEq, Fintype, Repr

/-- Modelled from the spec: the edge state at cubie granularity, one `Edge` per
slot in the fixed canonical order
`[UB, UR, UF, UL, FR, FL, BR, BL, DF, DR, DB, DL]` (comment in `cubie.rs` and
spec §3).  The bit-packed 128-bit vector of the Rust type is recovered from
this state by the byte-encoding functions defined below. -/
abbrev EdgeCubieCube := Fin 12 → Edge

/-- Modelled from the spec: the corner state, one `Corner` per slot in the
fixed order `[UBL, UBR, UFR, UFL, DFL, DFR, DBR, DBL]` (comment in
`cubie.rs` and spec §3). -/
abbrev CornerCubieCube := Fin 8 → Corner

/-- The full cubie-level cube: `cubie.rs` `struct CubieCube { edges, corners }`. -/
structure CubieCube where
  edges : EdgeCubieCube
  corners : CornerCubieCube
deriving DecidableEq

/-- Modelled from the spec: `new_solved()` is the identity permutation with
zero orientation (spec §4.1), every edge in its home slot and oriented on all
three axes. -/
def EdgeCubieCube.new_solved : EdgeCubieCube := fun i => ⟨i, true, true, true⟩

/-- Modelled from the spec: the solved corner state — identity permutation,
zero twist (spec §4.1). -/
def CornerCubieCube.new_solved : CornerCubieCube := fun i => ⟨i, 0⟩

/-- `CubieCube::new_solved` from `cubie.rs`: solved edges and corners. -/
def CubieCube.new_solved : CubieCube :=
  ⟨EdgeCubieCube.new_solved, CornerCubieCube.new_solved⟩

/-- `CubieCube::CORNER_COLORS` from `cubie.rs`, row `i` giving the sticker
colors of corner `i` in twist order. -/
def CubieCube.CORNER_COLORS : Fin 8 → Fin 3 → Color :=
  ![![.White, .Orange, .Blue],
    ![.White, .Blue, .Red],
    ![.White, .Red, .Green],
    ![.White, .Green, .Orange],
    ![.Yellow, .Orange, .Green],
    ![.Yellow, .Green, .Red],
    ![.Yellow, .Red, .Blue],
    ![.Yellow, .Blue, .Orange]]

/-- `CubieCube::EDGE_COLORS` from `cubie.rs`. -/
def CubieCube.EDGE_COLORS : Fin 12 → Fin 2 → Color :=
  ![![.White, .Blue],
    ![.White, .Red],
    ![.White, .Green],
    ![.White, .Orange],
    ![.Green, .Red],
    ![.Green, .Orange],
    ![.Blue, .Red],
    ![.Blue, .Orange],
    ![.Yellow, .Green],
    ![.Yellow, .Red],
    ![.Yellow, .Blue],
    ![.Yellow, .Orange]]

/-- `get_facelets` from `cubie.rs` (`impl Cube for CubieCube`), translated
assignment by assignment.  Corner positions are numbered
`UBL=0, UBR=1, UFR=2, UFL=3, DFL=4, DFR=5, DBR=6, DBL=7` and edge positions
`UB=0, UR=1, UF=2, UL=3, FR=4, FL=5, BR=6, BL=7, DF=8, DR=9, DB=10, DL=11`,
matching the slot orders of the two vectors.  The helper `c` computes
`CORNER_COLORS[corner.id][(3 - corner.orientation + twist) % 3]` and the
helper `e` computes `EDGE_COLORS[edge.id][!(edge.oriented_fb ^ flip)]`,
exactly as in the source. -/
def CubieCube.get_facelets (cube : CubieCube) : Face → Fin 9 → Color :=
  let c : Fin 8 → Fin 3 → Color := fun id twist =>
    let corner := cube.corners id
    CubieCube.CORNER_COLORS corner.id
      ⟨(3 - corner.orientation.val + twist.val) % 3, by omega⟩
  let e : Fin 12 → Bool → Color := fun id flip =>
    let edge := cube.edges id
    CubieCube.EDGE_COLORS edge.id (if xor edge.oriented_fb flip then 0 else 1)
  fun face =>
    match face with
    | .Up =>
      ![c 0 0, e 0 false, c 1 0, e 3 false, .White, e 1 false, c 3 0, e 2 false, c 2 0]
    | .Down =>
      ![c 4 0, e 8 false, c 5 0, e 11 false, .Yellow, e 9 false, c 7 0, e 10 false, c 6 0]
    | .Front =>
      ![c 3 1, e 2 true, c 2 2, e 5 false, .Green, e 4 false, c 4 2, e 8 true, c 5 1]
    | .Back =>
      ![c 1 1, e 0 true, c 0 2, e 6 false, .Blue, e 7 false, c 6 2, e 10 true, c 7 1]
    | .Left =>
      ![c 0 1, e 3 true, c 3 2, e 7 true, .Orange, e 5 true, c 7 2, e 11 true, c 4 1]
    | .Right =>
      ![c 2 1, e 1 true, c 1 2, e 4 true, .Red, e 6 true, c 5 2, e 9 true, c 6 1]

/-- The canonical solved color map of the claim and of spec §6: every facelet
of a face carries that face's center color (U=white, D=yellow, F=green,
B=blue, L=orange, R=red). -/
def solvedColorMap : Face → Fin 9 → Color := fun face _ =>
  match face with
  | .Up => .White
  | .Down => .Yellow
  | .Front => .Green
  | .Back => .Blue
  | .Left => .Orange
  | .Right => .Red

example : CubieCube.get_facelets CubieCube.new_solved = solvedColorMap := by decide

/-- Application of a 4-cycle `a → b → c → d → a` of slots to a state, with a
uniform content adjustment `f` applied to each moved piece.  This is the
cubie-level reading of the spec's `state = shuffle(state, perm_vec) xor
orient_mask` for one face turn (spec §4.1). -/
def cycle4 {n : Nat} {α : Type} (a b c d : Fin n) (f : α → α)
    (s : Fin n → α) : Fin n → α := fun i =>
  if i = b then f (s a)
  else if i = c then f (s b)
  else if i = d then f (s c)
  else if i = a then f (s d)
  else s i

/-- Like `cycle4` but with two alternating content adjustments, as needed for
the alternating corner twists of a quarter turn. -/
def cycle4alt {n : Nat} {α : Type} (a b c d : Fin n) (f g : α → α)
    (s : Fin n → α) : Fin n → α := fun i =>
  if i = b then f (s a)
  else if i = c then g (s b)
  else if i = d then f (s c)
  else if i = a then g (s d)
  else s i

/-- Toggle the FB orientation flag of an edge. -/
def Edge.flipFB (e : Edge) : Edge := { e with oriented_fb := !e.oriented_fb }

/-- Toggle the RL orientation flag of an edge. -/
def Edge.flipRL (e : Edge) : Edge := { e with oriented_rl := !e.oriented_rl }

/-- Twist a corner by one step. -/
def Corner.twist1 (c : Corner) : Corner :=
  { c with orientation := c.orientation + 1 }

/-- Twist a corner by two steps. -/
def Corner.twist2 (c : Corner) : Corner :=
  { c with orientation := c.orientation + 2 }

/-- Modelled from the spec: the effect of one clockwise quarter turn of a face
on the edge vector (spec §4.1).  Each face cycles its four edge slots; per the
spec, "Quarter turns of F/B/R/L flip edge orientation in the FB/RL axis", so F
and B toggle the FB flag of the moved edges, R and L toggle the RL flag, and U
and D leave all flags unchanged. -/
def edgeQuarter : Face → EdgeCubieCube → EdgeCubieCube
  | .Up => cycle4 0 1 2 3 id
  | .Down => cycle4 8 9 10 11 id
  | .Front => cycle4 2 4 8 5 Edge.flipFB
  | .Back => cycle4 0 7 10 6 Edge.flipFB
  | .Right => cycle4 1 6 9 4 Edge.flipRL
  | .Left => cycle4 3 5 11 7 Edge.flipRL

/-- Modelled from the spec: the effect of one clockwise quarter turn on the
corner vector (spec §4.1).  Each face cycles its four corner slots; per the
spec, "quarter turns of U/D/F/B twist corners", with the alternating
`+1/+2/+1/+2` twist pattern around the cycle that the corner-orientation-sum
invariant (spec §3) forces. -/
def cornerQuarter : Face → CornerCubieCube → CornerCubieCube
  | .Up => cycle4alt 0 1 2 3 Corner.twist1 Corner.twist2
  | .Down => cycle4alt 5 6 7 4 Corner.twist1 Corner.twist2
  | .Front => cycle4alt 3 2 5 4 Corner.twist1 Corner.twist2
  | .Back => cycle4alt 1 0 7 6 Corner.twist1 Corner.twist2
  | .Right => cycle4 2 1 6 5 id
  | .Left => cycle4 0 3 4 7 id

/-- Modelled from the spec: `turn` on the edge vector — all 18 turn variants
are table-driven (spec §4.1); a half turn is two quarters and a
counter-clockwise turn three. -/
def EdgeCubieCube.turn (m : Move) (s : EdgeCubieCube) : EdgeCubieCube :=
  match m.dir with
  | .Clockwise => edgeQuarter m.face s
  | .Half => edgeQuarter m.face (edgeQuarter m.face s)
  | .CounterClockwise => edgeQuarter m.face (edgeQuarter m.face (edgeQuarter m.face s))

/-- Modelled from the spec: `turn` on the corner vector. -/
def CornerCubieCube.turn (m : Move) (s : CornerCubieCube) : CornerCubieCube :=
  match m.dir with
  | .Clockwise => cornerQuarter m.face s
  | .Half => cornerQuarter m.face (cornerQuarter m.face s)
  | .CounterClockwise => cornerQuarter m.face (cornerQuarter m.face (cornerQuarter m.face s))

/-- `Turnable::turn` for `CubieCube` from `cubie.rs`: turn the edge component
and the corner component. -/
def CubieCube.turn (m : Move) (c : CubieCube) : CubieCube :=
  ⟨EdgeCubieCube.turn m c.edges, CornerCubieCube.turn m c.corners⟩



/-- Modelled from the spec: the slot permutation of a clockwise quarter
whole-cube rotation about an axis, as a "destination receives from source"
table (`τ i` is the slot whose content moves to slot `i`), for the 12 edge
slots.  The spec fixes only the shape of `transform` (shuffle + xor with
identity relabelling, spec §4.1); the tables here realise the `y`, `z` and `x`
rotations for the UD, FB and LR axes. -/
def edgeRotSrc : CubeAxis → Fin 12 → Fin 12
  | .UD => ![3, 0, 1, 2, 6, 4, 7, 5, 9, 10, 11, 8]
  | .FB => ![7, 3, 5, 11, 2, 8, 0, 10, 4, 1, 6, 9]
  | .LR => ![2, 4, 8, 5, 9, 11, 1, 3, 10, 6, 0, 7]

/-- Modelled from the spec: the identity relabelling of a whole-cube rotation
on edge identities — the forward permutation matching `edgeRotSrc`
(`edgeRotDest (edgeRotSrc a i) = i`). -/
def edgeRotDest : CubeAxis → Fin 12 → Fin 12
  | .UD => ![1, 2, 3, 0, 5, 7, 4, 6, 11, 8, 9, 10]
  | .FB => ![6, 9, 4, 1, 8, 2, 10, 0, 5, 11, 7, 3]
  | .LR => ![10, 6, 0, 7, 1, 3, 9, 11, 2, 4, 8, 5]

/-- Modelled from the spec: how a rotation about an axis permutes the three
per-axis edge orientation flags — the two axes other than the rotation axis
swap roles, the rotation axis keeps its flag. -/
def edgeRotFlags : CubeAxis → Edge → Edge
  | .UD => fun e => { e with oriented_fb := e.oriented_rl, oriented_rl := e.oriented_fb }
  | .FB => fun e => { e with oriented_ud := e.oriented_rl, oriented_rl := e.oriented_ud }
  | .LR => fun e => { e with oriented_ud := e.oriented_fb, oriented_fb := e.oriented_ud }

/-- Modelled from the spec: one clockwise quarter whole-cube rotation of the
edge vector: shuffle the slots, relabel the identity of each edge by the same
permutation, and permute the orientation flags. -/
def edgeRotQuarter (a : CubeAxis) (s : EdgeCubieCube) : EdgeCubieCube := fun i =>
  let e := s (edgeRotSrc a i)
  edgeRotFlags a { e with id := edgeRotDest a e.id }

/-- Modelled from the spec: the corner-slot source table of a clockwise
quarter whole-cube rotation, analogous to `edgeRotSrc`. -/
def cornerRotSrc : CubeAxis → Fin 8 → Fin 8
  | .UD => ![3, 0, 1, 2, 5, 6, 7, 4]
  | .FB => ![7, 0, 3, 4, 5, 2, 1, 6]
  | .LR => ![3, 2, 5, 4, 7, 6, 1, 0]

/-- Modelled from the spec: the forward corner permutation matching
`cornerRotSrc`. -/
def cornerRotDest : CubeAxis → Fin 8 → Fin 8
  | .UD => ![1, 2, 3, 0, 7, 4, 5, 6]
  | .FB => ![1, 6, 5, 2, 3, 4, 7, 0]
  | .LR => ![7, 6, 1, 0, 3, 2, 5, 4]

/-- Modelled from the spec: one clockwise quarter whole-cube rotation of the
corner vector: shuffle the slots and relabel the identities.  The spec leaves
the corner-orientation masks of `transform` unspecified, so the twist field is
carried unchanged here; no claim depends on it. -/
def cornerRotQuarter (a : CubeAxis) (s : CornerCubieCube) : CornerCubieCube := fun i =>
  let c := s (cornerRotSrc a i)
  { c with id := cornerRotDest a c.id }

/-- Modelled from the spec: `transform` on the edge vector — same table-driven
shape as `turn` (spec §4.1). -/
def EdgeCubieCube.transform (t : Transformation) (s : EdgeCubieCube) : EdgeCubieCube :=
  match t.dir with
  | .Clockwise => edgeRotQuarter t.axis s
  | .Half => edgeRotQuarter t.axis (edgeRotQuarter t.axis s)
  | .CounterClockwise =>
    edgeRotQuarter t.axis (edgeRotQuarter t.axis (edgeRotQuarter t.axis s))

/-- Modelled from the spec: `transform` on the corner vector. -/
def CornerCubieCube.transform (t : Transformation) (s : CornerCubieCube) : CornerCubieCube :=
  match t.dir with
  | .Clockwise => cornerRotQuarter t.axis s
  | .Half => cornerRotQuarter t.axis (cornerRotQuarter t.axis s)
  | .CounterClockwise =>
    cornerRotQuarter t.axis (cornerRotQuarter t.axis (cornerRotQuarter t.axis s))

/-- `Turnable::transform` for `CubieCube` from `cubie.rs`: transform the edge
component and the corner component. -/
def CubieCube.transform (t : Transformation) (c : CubieCube) : CubieCube :=
  ⟨EdgeCubieCube.transform t c.edges, CornerCubieCube.transform t c.corners⟩

/-- Lookup of the slot currently holding piece `i`: the first `j` with
`f j = i`.  This is the "find `j` such that `id[j] == i`" of the spec's
`invert` algorithm (spec §4.1). -/
def invLookup (n : Nat) (f : Fin n → Fin n) (i : Fin n) : Option (Fin n) :=
  (List.finRange n).find? (fun j => f j == i)

/-- Modelled from the spec: `invert` on the edge vector — "for each slot `i`,
find `j` such that `id[j] == i`, emit `new_id[i] = j`, and negate orientation"
(spec §4.1).  Negation on the order-2 flip flags is the identity, so the flags
of the located edge are carried over.  On an id field that is not a
permutation (an unreachable state, spec §3 invariants) the lookup can fail;
the slot is then left unchanged. -/
def EdgeCubieCube.invert (s : EdgeCubieCube) : EdgeCubieCube := fun i =>
  match invLookup 12 (fun j => (s j).id) i with
  | some j => ⟨j, (s j).oriented_ud, (s j).oriented_fb, (s j).oriented_rl⟩
  | none => s i

/-- Modelled from the spec: `invert` on the corner vector, negating the twist
modulo 3. -/
def CornerCubieCube.invert (s : CornerCubieCube) : CornerCubieCube := fun i =>
  match invLookup 8 (fun j => (s j).id) i with
  | some j => ⟨j, -(s j).orientation⟩
  | none => s i

/-- `Invertible::invert` for `CubieCube` from `cubie.rs`: invert the edge
component and the corner component. -/
def CubieCube.invert (c : CubieCube) : CubieCube :=
  ⟨EdgeCubieCube.invert c.edges, CornerCubieCube.invert c.corners⟩

/-- Modelled from the spec: the byte encoding of one edge — identity in the
high nibble and the three orientation bits UD/FB/RL at bit positions 3, 2 and
1 of the low nibble, a bit being set when the edge is *not* oriented on that
axis (a "bad edge").  These positions are the ones selected by the
`BAD_EDGE_MASK_*` constants of `cubie.rs` (`0x08`/`0x04`/`0x02` in every
byte); bit 0 is the free bit of the comment "4 bits for id, 3 bits for eo
(UD/FB/RL), 1 bit free". -/
def encodeEdgeByte (e : Edge) : Nat :=
  16 * e.id.val + (cond e.oriented_ud 0 8) + (cond e.oriented_fb 0 4) +
    (cond e.oriented_rl 0 2)

/-- Modelled from the spec: byte `k` of the 16-byte packed edge vector —
the 12 edge bytes followed by four zero bytes ("Remaining bits are reserved
zero", spec §3). -/
def edgeByte (s : EdgeCubieCube) (k : Fin 16) : Nat :=
  if h : k.val < 12 then encodeEdgeByte (s ⟨k.val, h⟩) else 0

/-- Little-endian packing of eight bytes into one 64-bit word. -/
def pack8 (f : Fin 8 → Nat) : Nat :=
  f 0 + 256 * (f 1 + 256 * (f 2 + 256 * (f 3 +
    256 * (f 4 + 256 * (f 5 + 256 * (f 6 + 256 * f 7))))))

/-- Modelled from the spec: `get_edges_raw` — the two 64-bit halves of the
packed 128-bit edge vector. -/
def EdgeCubieCube.get_edges_raw (s : EdgeCubieCube) : Nat × Nat :=
  (pack8 (fun k => edgeByte s ⟨k.val, by omega⟩),
   pack8 (fun k => edgeByte s ⟨8 + k.val, by omega⟩))

/-- The packed 128-bit edge vector as a single natural number below `2^128`. -/
def edgePacked128 (s : EdgeCubieCube) : Nat :=
  pack8 (fun k => edgeByte s ⟨k.val, by omega⟩) +
    2 ^ 64 * pack8 (fun k => edgeByte s ⟨8 + k.val, by omega⟩)

/-- `PartialEq for EdgeCubieCube` from `cubie.rs`: equality of the
`get_edges_raw` pairs. -/
def EdgeCubieCube.eq (a b : EdgeCubieCube) : Prop :=
  EdgeCubieCube.get_edges_raw a = EdgeCubieCube.get_edges_raw b

/-- Modelled from the spec: the byte encoding of one corner — identity in the
low three bits, twist in bits 5–7 (spec §3; comment in `cubie.rs`: "3 bits
for id, 2 bits free, 3 bits for co"). -/
def encodeCornerByte (c : Corner) : Nat :=
  c.id.val + 32 * c.orientation.val

/-- Modelled from the spec: byte `k` of the 16-byte packed corner vector —
eight corner bytes followed by eight zero bytes. -/
def cornerByte (s : CornerCubieCube) (k : Fin 16) : Nat :=
  if h : k.val < 8 then encodeCornerByte (s ⟨k.val, h⟩) else 0

/-- Modelled from the spec: `get_corners_raw` — the meaningful low 64 bits of
the packed corner vector. -/
def CornerCubieCube.get_corners_raw (s : CornerCubieCube) : Nat :=
  pack8 (fun k => cornerByte s ⟨k.val, by omega⟩)

/-- The packed 128-bit corner vector as a single natural number. -/
def cornerPacked128 (s : CornerCubieCube) : Nat :=
  pack8 (fun k => cornerByte s ⟨k.val, by omega⟩) +
    2 ^ 64 * pack8 (fun k => cornerByte s ⟨8 + k.val, by omega⟩)

/-- `PartialEq for CornerCubieCube` from `cubie.rs`: equality of
`get_corners_raw`. -/
def CornerCubieCube.eq (a b : CornerCubieCube) : Prop :=
  CornerCubieCube.get_corners_raw a = CornerCubieCube.get_corners_raw b

/-- The derived `PartialEq for CubieCube` from `cubie.rs`
(`#[derive(PartialEq)]`): componentwise equality. -/
def CubieCube.eq (a b : CubieCube) : Prop :=
  EdgeCubieCube.eq a.edges b.edges ∧ CornerCubieCube.eq a.corners b.corners

/-- `EdgeCubieCube::BAD_EDGE_MASK_UD` from `cubie.rs`. -/
def EdgeCubieCube.BAD_EDGE_MASK_UD : Nat := 0x0808080808080808

/-- `EdgeCubieCube::BAD_EDGE_MASK_FB` from `cubie.rs`. -/
def EdgeCubieCube.BAD_EDGE_MASK_FB : Nat := 0x0404040404040404

/-- `EdgeCubieCube::BAD_EDGE_MASK_RL` from `cubie.rs`. -/
def EdgeCubieCube.BAD_EDGE_MASK_RL : Nat := 0x0202020202020202

/-- Formalisation of the layout asserted by claim C5: if each edge byte kept
its identity in the low nibble and its three orientation flags in the high
nibble, then a mask selecting exactly one orientation bit per edge byte would
have to be clear on all low-nibble bit positions (bits 0–3) of every byte. -/
def maskSelectsHighNibbleBits (mask : Nat) : Prop :=
  ∀ k, k < 8 → ∀ j, j < 4 → Nat.testBit (mask >>> (8 * k)) j = false

/-- Modelled from the spec: the step kinds `{EO, DR, HTR, FR, FIN}` (spec §3). -/
inductive StepKind
  | EO
  | DR
  | HTR
  | FR
  | FIN
deriving DecidableEq, Repr

/-- Modelled from the spec: `NissSwitchType ∈ {Never, Before, Always}`
(spec §6). -/
inductive NissSwitchType
  | Never
  | Before
  | Always
deriving DecidableEq, Fintype, Repr

/-- Modelled from the spec: the declarative step-config record (spec §4.6 and
§6) with the fields read by `finish_config.rs`: optional `substeps`, optional
`min`/`max`, optional absolute bounds, an optional explicit `step_limit` and
the `quality` budget. -/
structure StepConfig where
  substeps : Option (List String)
  min : Option Nat
  max : Option Nat
  absolute_min : Option Nat
  absolute_max : Option Nat
  niss : Option NissSwitchType
  step_limit : Option Nat
  quality : Nat
deriving DecidableEq, Repr

/-- Modelled from the spec: the `StepOptions`/`DefaultStepOptions` record
built by the step composer (spec §4.6). -/
structure DefaultStepOptions where
  min : Nat
  max : Nat
  absolute_min : Option Nat
  absolute_max : Option Nat
  niss_type : NissSwitchType
  step_limit : Option Nat
deriving DecidableEq, Repr

/-- Modelled from the spec: `DefaultStepOptions::new`, a plain constructor in
argument order as called by `finish_config.rs`. -/
def DefaultStepOptions.new (min max : Nat) (absolute_min absolute_max : Option Nat)
    (niss_type : NissSwitchType) (step_limit : Option Nat) : DefaultStepOptions :=
  ⟨min, max, absolute_min, absolute_max, niss_type, step_limit⟩

/-- Modelled from the spec: a step variant as far as `finish_config.rs`
determines it — the list of pre-applied transformations and the textual name
passed to `DefaultPruningTableStep::new` (spec §3: "A StepVariant couples: a
move set, a list of pre-applied transformations, a pruning table, a post-step
predicate, and a textual name"; the move set and pruning table are the same
for all finish variants). -/
structure StepVariant333 where
  transformations : List Transformation
  name : String
deriving DecidableEq, Repr

/-- Modelled from the spec: a `Step` — an ordered collection of variants with
a `StepKind` (spec §3).  The final `Bool` mirrors the third argument of
`Step::new` in the source. -/
structure Step333 where
  step_variants : List StepVariant333
  kind : StepKind
  is_major : Bool
deriving DecidableEq, Repr

/-- Modelled from the spec: `Step::new`. -/
def Step.new (v : List StepVariant333) (k : StepKind) (b : Bool) : Step333 :=
  ⟨v, k, b⟩

/-- The variant built by `fr_finish` in `finish_config.rs` for one axis: UD
uses no transformation, FB the `x` rotation, LR the `z` rotation; all names
are empty. -/
def frVariant : CubeAxis → StepVariant333
  | .UD => ⟨[], ""⟩
  | .FB => ⟨[⟨CubeAxis.X, .Clockwise⟩], ""⟩
  | .LR => ⟨[⟨CubeAxis.Z, .Clockwise⟩], ""⟩

/-- `fr_finish` from `finish_config.rs`: one variant per requested axis, in
order, wrapped into a `FIN` step.  (Every axis arm of the source `match`
yields `Some`, so the `flat_map` is a plain map.) -/
def fr_finish (fr_axis : List CubeAxis) : Step333 :=
  Step.new (fr_axis.map frVariant) StepKind.FIN true

/-- `fr_finish_any` from `finish_config.rs`. -/
def fr_finish_any : Step333 :=
  fr_finish [CubeAxis.UD, CubeAxis.FB, CubeAxis.LR]

/-- The variant built by `fr_finish_leave_slice` for one axis; identical to
`frVariant` except for the names `"ud"`, `"fb"`, `"lr"`. -/
def frLsVariant : CubeAxis → StepVariant333
  | .UD => ⟨[], "ud"⟩
  | .FB => ⟨[⟨CubeAxis.X, .Clockwise⟩], "fb"⟩
  | .LR => ⟨[⟨CubeAxis.Z, .Clockwise⟩], "lr"⟩

/-- `fr_finish_leave_slice` from `finish_config.rs`. -/
def fr_finish_leave_slice (fr_axis : List CubeAxis) : Step333 :=
  Step.new (fr_axis.map frLsVariant) StepKind.FIN true

/-- `fr_finish_leave_slice_any` from `finish_config.rs`. -/
def fr_finish_leave_slice_any : Step333 :=
  fr_finish_leave_slice [CubeAxis.UD, CubeAxis.FB, CubeAxis.LR]

/-- `htr_finish` from `finish_config.rs`: a single variant with no
transformations and an empty name. -/
def htr_finish : Step333 :=
  Step.new [⟨[], ""⟩] StepKind.FIN true

/-- Modelled from the spec: Rust's `str::to_lowercase` as used on the ASCII
substep names — lowercase every character. -/
def strToLower (s : String) : String := ⟨s.data.map Char.toLower⟩

/-- The per-substep axis parser of `from_step_config_fr` and
`from_step_config_fr_leave_slice` in `finish_config.rs`: lowercase the entry
and match it against the recognised names, otherwise produce
`"Invalid HTR substep {x}"` for the lowercased entry `x`. -/
def axisOfStr (s : String) : Except String CubeAxis :=
  match strToLower s with
  | "finishud" | "finud" | "ud" => .ok CubeAxis.UD
  | "finishfb" | "finfb" | "fb" => .ok CubeAxis.FB
  | "finishlr" | "finlr" | "lr" => .ok CubeAxis.LR
  | x => .error ("Invalid HTR substep " ++ x)

/-- Whether `axisOfStr` recognises a substep string. -/
def isOkAxis (r : Except String CubeAxis) : Bool :=
  match r with
  | .ok _ => true
  | .error _ => false

/-- The `collect::<Result<Vec<CubeAxis>, String>>()` of the source: parse each
substep in order, short-circuiting on the first error. -/
def parseAxes : List String → Except String (List CubeAxis)
  | [] => .ok []
  | s :: rest =>
    match axisOfStr s with
    | .error e => .error e
    | .ok a =>
      match parseAxes rest with
      | .error e => .error e
      | .ok axes => .ok (a :: axes)

/-- The shared `DefaultStepOptions::new(...)` expression of the three
`from_step_config_*` functions in `finish_config.rs`, written out once here
to state lemmas about it; each embedded function repeats it inline exactly as
the source does. -/
def finishOptionsOf (config : StepConfig) : DefaultStepOptions :=
  DefaultStepOptions.new
    (config.min.getD 0)
    (config.max.getD 10)
    config.absolute_min
    config.absolute_max
    NissSwitchType.Never
    (if config.quality = 0 then none
     else config.step_limit.or (some (config.quality * 1)))

/-- `from_step_config_fr` from `finish_config.rs`: resolve the substeps (or
default to all three axes), then pair the step with the options record. -/
def from_step_config_fr (config : StepConfig) :
    Except String (Step333 × DefaultStepOptions) :=
  match (match config.substeps with
         | some substeps => (parseAxes substeps).map fr_finish
         | none => .ok fr_finish_any) with
  | .error e => .error e
  | .ok step =>
    .ok (step, DefaultStepOptions.new
      (config.min.getD 0)
      (config.max.getD 10)
      config.absolute_min
      config.absolute_max
      NissSwitchType.Never
      (if config.quality = 0 then none
       else config.step_limit.or (some (config.quality * 1))))

/-- `from_step_config_fr_leave_slice` from `finish_config.rs`. -/
def from_step_config_fr_leave_slice (config : StepConfig) :
    Except String (Step333 × DefaultStepOptions) :=
  match (match config.substeps with
         | some substeps => (parseAxes substeps).map fr_finish_leave_slice
         | none => .ok fr_finish_leave_slice_any) with
  | .error e => .error e
  | .ok step =>
    .ok (step, DefaultStepOptions.new
      (config.min.getD 0)
      (config.max.getD 10)
      config.absolute_min
      config.absolute_max
      NissSwitchType.Never
      (if config.quality = 0 then none
       else config.step_limit.or (some (config.quality * 1))))

/-- `from_step_config_htr` from `finish_config.rs`: always succeeds with the
single HTR finish step. -/
def from_step_config_htr (config : StepConfig) :
    Except String (Step333 × DefaultStepOptions) :=
  .ok (htr_finish, DefaultStepOptions.new
    (config.min.getD 0)
    (config.max.getD 10)
    config.absolute_min
    config.absolute_max
    NissSwitchType.Never
    (if config.quality = 0 then none
     else config.step_limit.or (some (config.quality * 1))))

/-- Modelled from the spec: a transition-table entry — the bitmask of
permissible next turns and the bitmask of turns the step may end on
(spec §4.4: "precomputed 18×18 bitmasks"). -/
structure TransitionTable333 where
  allowed : Nat
  can_end : Nat
deriving DecidableEq, Repr

/-- Modelled from the spec: `TransitionTable333::new`. -/
def TransitionTable333.new (allowed can_end : Nat) : TransitionTable333 :=
  ⟨allowed, can_end⟩

/-- Modelled from the spec: `TransitionTable333::ANY` — all 18 turn bits set. -/
def TransitionTable333.ANY : Nat := 2 ^ 18 - 1

/-- Index of a face in the spec's enumeration `{U,D,F,B,L,R}` (spec §3). -/
def Face.idx : Face → Nat
  | .Up => 0
  | .Down => 1
  | .Front => 2
  | .Back => 3
  | .Left => 4
  | .Right => 5

/-- The opposite (parallel) face. -/
def Face.opposite : Face → Face
  | .Up => .Down
  | .Down => .Up
  | .Front => .Back
  | .Back => .Front
  | .Left => .Right
  | .Right => .Left

/-- Whether a face is the later one of its parallel pair in the spec's fixed
ordering "U before D, F before B, R before L" (spec §4.4). -/
def Face.isLaterOfPair : Face → Bool
  | .Down => true
  | .Back => true
  | .Left => true
  | _ => false

/-- Index of a direction: CW, Half, CCW (spec §3). -/
def Direction.idx : Direction → Nat
  | .Clockwise => 0
  | .Half => 1
  | .CounterClockwise => 2

/-- Modelled from the spec: `Turn333::new`. -/
def Turn333.new (f : Face) (d : Direction) : Move := ⟨f, d⟩

/-- Modelled from the spec: `to_id` — "Total distinct turns: 18, enumerated
0..17 by `face*3 + direction`" (spec §3). -/
def Move.to_id (m : Move) : Fin 18 :=
  ⟨3 * m.face.idx + m.dir.idx, by cases m with
    | mk f d => cases f <;> cases d <;> simp [Face.idx, Direction.idx]⟩

/-- The three-bit mask covering the turns of one face in the 18-bit turn
bitmask. -/
def faceTurnMask (f : Face) : Nat := 7 <<< (3 * f.idx)

/-- Modelled from the spec: `TransitionTable333::DEFAULT_ALLOWED_AFTER[f]` —
the canonical rule "forbids: (i) turning the same face twice in a row,
(ii) turning a face followed by its parallel (opposite) face in a fixed
ordering (break the U-D symmetry by insisting U before D, F before B, R
before L)" (spec §4.4): all turns except those of `f` itself and, when `f`
is the later face of its pair, those of the opposite face. -/
def DEFAULT_ALLOWED_AFTER (f : Face) : Nat :=
  (TransitionTable333.ANY ^^^ faceTurnMask f) ^^^
    (if f.isLaterOfPair then faceTurnMask f.opposite else 0)

/-- Modelled from the spec: `CubeFace::ALL`. -/
def CubeFace.ALL : List Face :=
  [.Up, .Down, .Front, .Back, .Left, .Right]

/-- `finish_transitions` from `finish_config.rs`: start from `new(0, 0)`
everywhere and, for every face, write
`new(DEFAULT_ALLOWED_AFTER[face], ANY)` at the ids of its clockwise, half and
counter-clockwise turns. -/
def finish_transitions : Fin 18 → TransitionTable333 :=
  CubeFace.ALL.foldl
    (fun transitions f =>
      Function.update
        (Function.update
          (Function.update transitions
            (Move.to_id (Turn333.new f .Clockwise))
            (TransitionTable333.new (DEFAULT_ALLOWED_AFTER f) TransitionTable333.ANY))
          (Move.to_id (Turn333.new f .Half))
          (TransitionTable333.new (DEFAULT_ALLOWED_AFTER f) TransitionTable333.ANY))
        (Move.to_id (Turn333.new f .CounterClockwise))
        (TransitionTable333.new (DEFAULT_ALLOWED_AFTER f) TransitionTable333.ANY))
    (fun _ => TransitionTable333.new 0 0)

/-!  Theorems.  Helper lemmas come first, then one theorem per claim (with a
witness or counterexample where required). -/

theorem twist_cancel_a : ∀ o : Fin 3, o + 1 + 2 + 1 + 2 = o := by decide

theorem twist_cancel_b : ∀ o : Fin 3, o + 2 + 1 + 2 + 1 = o := by decide

/-- Four clockwise quarter turns of any face restore the edge vector. -/
theorem edgeQuarter_fourth (f : Face) (s : EdgeCubieCube) :
    edgeQuarter f (edgeQuarter f (edgeQuarter f (edgeQuarter f s))) = s := by
  cases f <;>
    · funext i
      fin_cases i <;> simp [edgeQuarter, cycle4, Edge.flipFB, Edge.flipRL]

/-- Four clockwise quarter turns of any face restore the corner vector. -/
theorem cornerQuarter_fourth (f : Face) (s : CornerCubieCube) :
    cornerQuarter f (cornerQuarter f (cornerQuarter f (cornerQuarter f s))) = s := by
  cases f <;>
    · funext i
      fin_cases i <;>
        simp [cornerQuarter, cycle4, cycle4alt, Corner.twist1, Corner.twist2,
          twist_cancel_a, twist_cancel_b]

/-- Four applications of any turn restore the edge vector. -/
theorem edge_turn_fourth (m : Move) (s : EdgeCubieCube) :
    EdgeCubieCube.turn m (EdgeCubieCube.turn m (EdgeCubieCube.turn m
      (EdgeCubieCube.turn m s))) = s := by
  obtain ⟨f, d⟩ := m
  cases d <;> simp only [EdgeCubieCube.turn, edgeQuarter_fourth]

/-- Four applications of any turn restore the corner vector. -/
theorem corner_turn_fourth (m : Move) (s : CornerCubieCube) :
    CornerCubieCube.turn m (CornerCubieCube.turn m (CornerCubieCube.turn m
      (CornerCubieCube.turn m s))) = s := by
  obtain ⟨f, d⟩ := m
  cases d <;> simp only [CornerCubieCube.turn, cornerQuarter_fourth]

/-- Claim C1: for the cube returned by `CubieCube::new_solved()`,
`get_facelets()` returns the canonical solved color map — all nine facelets
of the Up face are White, Down Yellow, Front Green, Back Blue, Left Orange,
Right Red. -/
theorem get_facelets_new_solved_eq_solved_map :
    CubieCube.get_facelets CubieCube.new_solved = solvedColorMap := by
  decide

/-- Claim C2: for every turn `m` and every cube state `s`, applying
`CubieCube::turn` with `m` four times in succession returns `s` unchanged. -/
theorem turn_fourth_power_id (m : Move) (s : CubieCube) :
    CubieCube.turn m (CubieCube.turn m (CubieCube.turn m (CubieCube.turn m s))) = s := by
  cases s with
  | mk e c =>
    simp [CubieCube.turn, edge_turn_fourth, corner_turn_fourth]

/-- Claim C6: in the finish phase's transition table, for every previous turn
`p` the permitted next turns are exactly those on a different face than `p`
that are moreover not on the opposite face when `p`'s face is the later one
of its parallel pair (U before D, F before B, R before L); all other turns
are permitted. -/
theorem finish_transitions_allowed_iff (p n : Move) :
    Nat.testBit (finish_transitions p.to_id).allowed (n.to_id).val = true ↔
      (n.face ≠ p.face ∧ ¬(p.face.isLaterOfPair = true ∧ n.face = p.face.opposite)) := by
  revert p n
  decide

/-- When the id field is injective, `invLookup` finds exactly the slot holding
the requested piece. -/
theorem invLookup_eq_some {n : Nat} (f : Fin n → Fin n)
    (hinj : Function.Injective f) (i j : Fin n) (hj : f j = i) :
    invLookup n f i = some j := by
  unfold invLookup
  cases hfind : (List.finRange n).find? (fun k => f k == i) with
  | none =>
    exfalso
    have hnone := List.find?_eq_none.mp hfind j (List.mem_finRange j)
    simp [hj] at hnone
  | some k =>
    have hk : f k = i := by
      have := List.find?_some hfind
      simpa using this
    have hkj : k = j := hinj (hk.trans hj.symm)
    rw [hkj]

/-- Evaluation of `EdgeCubieCube.invert` on a state with a permutation id
field. -/
theorem edge_invert_apply (s : EdgeCubieCube)
    (hinj : Function.Injective fun j => (s j).id) (i j : Fin 12)
    (hj : (s j).id = i) :
    EdgeCubieCube.invert s i =
      ⟨j, (s j).oriented_ud, (s j).oriented_fb, (s j).oriented_rl⟩ := by
  unfold EdgeCubieCube.invert
  rw [invLookup_eq_some (fun j => (s j).id) hinj i j hj]

/-- Evaluation of `CornerCubieCube.invert` on a state with a permutation id
field. -/
theorem corner_invert_apply (s : CornerCubieCube)
    (hinj : Function.Injective fun j => (s j).id) (i j : Fin 8)
    (hj : (s j).id = i) :
    CornerCubieCube.invert s i = ⟨j, -(s j).orientation⟩ := by
  unfold CornerCubieCube.invert
  rw [invLookup_eq_some (fun j => (s j).id) hinj i j hj]

/-- Inversion of the edge vector is an involution on valid states. -/
theorem edge_invert_invert (s : EdgeCubieCube)
    (hinj : Function.Injective fun j => (s j).id) :
    EdgeCubieCube.invert (EdgeCubieCube.invert s) = s := by
  funext i
  have hsurj : Function.Surjective fun j => (s j).id :=
    Finite.surjective_of_injective hinj
  have happ : ∀ m : Fin 12, EdgeCubieCube.invert s ((s m).id) =
      ⟨m, (s m).oriented_ud, (s m).oriented_fb, (s m).oriented_rl⟩ :=
    fun m => edge_invert_apply s hinj _ m rfl
  have hinj2 : Function.Injective fun k => (EdgeCubieCube.invert s k).id := by
    intro a b hab
    obtain ⟨a', ha'⟩ := hsurj a
    obtain ⟨b', hb'⟩ := hsurj b
    have ha2 : (s a').id = a := ha'
    have hb2 : (s b').id = b := hb'
    have hab2 : (EdgeCubieCube.invert s a).id = (EdgeCubieCube.invert s b).id := hab
    rw [← ha2, ← hb2, happ a', happ b'] at hab2
    have hab3 : a' = b' := hab2
    rw [← ha2, ← hb2, hab3]
  have hkey : (EdgeCubieCube.invert s ((s i).id)).id = i := by rw [happ i]
  rw [edge_invert_apply (EdgeCubieCube.invert s) hinj2 i ((s i).id) hkey]
  rw [happ i]

/-- Inversion of the corner vector is an involution on valid states. -/
theorem corner_invert_invert (s : CornerCubieCube)
    (hinj : Function.Injective fun j => (s j).id) :
    CornerCubieCube.invert (CornerCubieCube.invert s) = s := by
  funext i
  have hsurj : Function.Surjective fun j => (s j).id :=
    Finite.surjective_of_injective hinj
  have happ : ∀ m : Fin 8, CornerCubieCube.invert s ((s m).id) =
      ⟨m, -(s m).orientation⟩ :=
    fun m => corner_invert_apply s hinj _ m rfl
  have hinj2 : Function.Injective fun k => (CornerCubieCube.invert s k).id := by
    intro a b hab
    obtain ⟨a', ha'⟩ := hsurj a
    obtain ⟨b', hb'⟩ := hsurj b
    have ha2 : (s a').id = a := ha'
    have hb2 : (s b').id = b := hb'
    have hab2 : (CornerCubieCube.invert s a).id = (CornerCubieCube.invert s b).id := hab
    rw [← ha2, ← hb2, happ a', happ b'] at hab2
    have hab3 : a' = b' := hab2
    rw [← ha2, ← hb2, hab3]
  have hkey : (CornerCubieCube.invert s ((s i).id)).id = i := by rw [happ i]
  rw [corner_invert_apply (CornerCubieCube.invert s) hinj2 i ((s i).id) hkey]
  rw [happ i]
  simp

/-- Claim C3: for every cube state `s` whose edge and corner identity fields
are permutations (the reachability invariant of spec §3), applying
`CubieCube::invert` twice returns `s`. -/
theorem invert_invert_eq_self (s : CubieCube)
    (he : Function.Injective fun i => (s.edges i).id)
    (hc : Function.Injective fun i => (s.corners i).id) :
    CubieCube.invert (CubieCube.invert s) = s := by
  cases s with
  | mk e c =>
    show CubieCube.mk (EdgeCubieCube.invert (EdgeCubieCube.invert e))
      (CornerCubieCube.invert (CornerCubieCube.invert c)) = ⟨e, c⟩
    rw [edge_invert_invert e he, corner_invert_invert c hc]

/-- Witness for claim C3 at the solved cube. -/
theorem invert_invert_witness :
    CubieCube.invert (CubieCube.invert CubieCube.new_solved) = CubieCube.new_solved :=
  invert_invert_eq_self CubieCube.new_solved (by decide) (by decide)

/-- Claim C10: `turn`, `transform` and `invert` on `CubieCube` act
componentwise — the resulting edge component depends only on the prior edge
component and the argument, and the resulting corner component only on the
prior corner component and the argument. -/
theorem cubie_ops_componentwise (s t : CubieCube) (m : Move) (tr : Transformation) :
    (s.edges = t.edges →
      (CubieCube.turn m s).edges = (CubieCube.turn m t).edges ∧
      (CubieCube.transform tr s).edges = (CubieCube.transform tr t).edges ∧
      (CubieCube.invert s).edges = (CubieCube.invert t).edges) ∧
    (s.corners = t.corners →
      (CubieCube.turn m s).corners = (CubieCube.turn m t).corners ∧
      (CubieCube.transform tr s).corners = (CubieCube.transform tr t).corners ∧
      (CubieCube.invert s).corners = (CubieCube.invert t).corners) := by
  constructor
  · intro h
    exact ⟨by simp [CubieCube.turn, h], by simp [CubieCube.transform, h],
      by simp [CubieCube.invert, h]⟩
  · intro h
    exact ⟨by simp [CubieCube.turn, h], by simp [CubieCube.transform, h],
      by simp [CubieCube.invert, h]⟩

/-- Witness for claim C10: two cubes sharing the edge component but differing
on corners get the same edge component from `turn` and from `invert`. -/
theorem cubie_ops_componentwise_witness :
    (CubieCube.turn ⟨.Up, .Clockwise⟩ CubieCube.new_solved).edges =
      (CubieCube.turn ⟨.Up, .Clockwise⟩
        ⟨EdgeCubieCube.new_solved, fun i => ⟨i, 1⟩⟩).edges ∧
    (CubieCube.invert CubieCube.new_solved).edges =
      (CubieCube.invert ⟨EdgeCubieCube.new_solved, fun i => ⟨i, 1⟩⟩).edges :=
  ⟨((cubie_ops_componentwise CubieCube.new_solved
      ⟨EdgeCubieCube.new_solved, fun i => ⟨i, 1⟩⟩ ⟨.Up, .Clockwise⟩
      ⟨CubeAxis.UD, .Clockwise⟩).1 rfl).1,
   ((cubie_ops_componentwise CubieCube.new_solved
      ⟨EdgeCubieCube.new_solved, fun i => ⟨i, 1⟩⟩ ⟨.Up, .Clockwise⟩
      ⟨CubeAxis.UD, .Clockwise⟩).1 rfl).2.2⟩

/-- Every encoded edge byte fits in one byte. -/
theorem encodeEdgeByte_lt (e : Edge) : encodeEdgeByte e < 256 := by
  have h := e.id.isLt
  unfold encodeEdgeByte
  cases e.oriented_ud <;> cases e.oriented_fb <;> cases e.oriented_rl <;>
    simp [cond] <;> omega

/-- Every byte of the packed edge vector fits in one byte. -/
theorem edgeByte_lt (s : EdgeCubieCube) (k : Fin 16) : edgeByte s k < 256 := by
  unfold edgeByte
  split
  · exact encodeEdgeByte_lt _
  · omega

/-- Every encoded corner byte fits in one byte. -/
theorem encodeCornerByte_lt (c : Corner) : encodeCornerByte c < 256 := by
  have h1 := c.id.isLt
  have h2 := c.orientation.isLt
  unfold encodeCornerByte
  omega

/-- Every byte of the packed corner vector fits in one byte. -/
theorem cornerByte_lt (s : CornerCubieCube) (k : Fin 16) : cornerByte s k < 256 := by
  unfold cornerByte
  split
  · exact encodeCornerByte_lt _
  · omega

/-- Eight bytes pack into a 64-bit word. -/
theorem pack8_lt (f : Fin 8 → Nat) (h : ∀ k, f k < 256) : pack8 f < 2 ^ 64 := by
  have h0 := h 0
  have h1 := h 1
  have h2 := h 2
  have h3 := h 3
  have h4 := h 4
  have h5 := h 5
  have h6 := h 6
  have h7 := h 7
  have hp : (2 : Nat) ^ 64 = 18446744073709551616 := by norm_num
  unfold pack8
  omega

/-- Splitting a 128-bit quantity into two bounded 64-bit halves is lossless. -/
theorem split128 (la ha lb hb : Nat) (h1 : la < 2 ^ 64) (h2 : lb < 2 ^ 64) :
    ((la, ha) = (lb, hb)) ↔ la + 2 ^ 64 * ha = lb + 2 ^ 64 * hb := by
  have hp : (2 : Nat) ^ 64 = 18446744073709551616 := by norm_num
  rw [Prod.mk.injEq, hp] at *
  constructor
  · rintro ⟨rfl, rfl⟩
    rfl
  · intro h
    omega

/-- Equality of naturals is bitwise equality. -/
theorem nat_eq_iff_testBit_eq (x y : Nat) :
    x = y ↔ ∀ i, Nat.testBit x i = Nat.testBit y i :=
  ⟨fun h i => by rw [h], Nat.eq_of_testBit_eq⟩

/-- `EdgeCubieCube::eq` decides equality of the packed 128-bit vector. -/
theorem edge_eq_iff_packed (a b : EdgeCubieCube) :
    EdgeCubieCube.eq a b ↔ edgePacked128 a = edgePacked128 b := by
  have hla : pack8 (fun k => edgeByte a ⟨k.val, by omega⟩) < 2 ^ 64 :=
    pack8_lt _ (fun k => edgeByte_lt a _)
  have hlb : pack8 (fun k => edgeByte b ⟨k.val, by omega⟩) < 2 ^ 64 :=
    pack8_lt _ (fun k => edgeByte_lt b _)
  exact split128 _ _ _ _ hla hlb

/-- `CornerCubieCube::eq` decides equality of the packed 128-bit vector
(whose high half is identically zero). -/
theorem corner_eq_iff_packed (a b : CornerCubieCube) :
    CornerCubieCube.eq a b ↔ cornerPacked128 a = cornerPacked128 b := by
  have hz : ∀ s : CornerCubieCube, cornerPacked128 s = CornerCubieCube.get_corners_raw s := by
    intro s
    show CornerCubieCube.get_corners_raw s + 2 ^ 64 *
      pack8 (fun k => cornerByte s ⟨8 + k.val, by omega⟩) = _
    have hzero : pack8 (fun k => cornerByte s ⟨8 + k.val, by omega⟩) = 0 := rfl
    rw [hzero]
    omega
  unfold CornerCubieCube.eq
  rw [hz, hz]

/-- Claim C4: for every pair of cube states, the `PartialEq` equality (which
compares the `get_edges_raw` pairs and the `get_corners_raw` words) holds if
and only if the packed 128-bit edge vectors and the packed 128-bit corner
vectors are bitwise equal. -/
theorem eq_iff_packed_bitwise (a b : CubieCube) :
    CubieCube.eq a b ↔
      ((∀ i, Nat.testBit (edgePacked128 a.edges) i =
          Nat.testBit (edgePacked128 b.edges) i) ∧
       (∀ i, Nat.testBit (cornerPacked128 a.corners) i =
          Nat.testBit (cornerPacked128 b.corners) i)) := by
  constructor
  · rintro ⟨h1, h2⟩
    exact ⟨(nat_eq_iff_testBit_eq _ _).mp ((edge_eq_iff_packed _ _).mp h1),
      (nat_eq_iff_testBit_eq _ _).mp ((corner_eq_iff_packed _ _).mp h2)⟩
  · rintro ⟨h1, h2⟩
    exact ⟨(edge_eq_iff_packed _ _).mpr ((nat_eq_iff_testBit_eq _ _).mpr h1),
      (corner_eq_iff_packed _ _).mpr ((nat_eq_iff_testBit_eq _ _).mpr h2)⟩

/-- Counterexample to claim C5: the `BAD_EDGE_MASK_*` constants of `cubie.rs`
do not select high-nibble bits — already in byte 0 the UD mask selects bit 3,
a low-nibble position — so the orientation flags cannot live in the high
nibble of each edge byte as the claim (following the spec's data-model text)
asserts. -/
theorem mask_layout_claim_false :
    ¬ (maskSelectsHighNibbleBits EdgeCubieCube.BAD_EDGE_MASK_UD ∧
       maskSelectsHighNibbleBits EdgeCubieCube.BAD_EDGE_MASK_FB ∧
       maskSelectsHighNibbleBits EdgeCubieCube.BAD_EDGE_MASK_RL) := by
  intro h
  have h3 := h.1 0 (by omega) 3 (by omega)
  exact absurd h3 (by decide)

/-- Claim C5 as amended: every state keeps the edge-byte layout in which the
edge identity occupies the *high* nibble and the three orientation flags
UD-flip, FB-flip, RL-flip sit at bits 3, 2 and 1 of the *low* nibble (bit 0
free, a bit being set when the edge is flipped on that axis); the masks
`BAD_EDGE_MASK_UD`, `BAD_EDGE_MASK_FB` and `BAD_EDGE_MASK_RL` hold `0x08`,
`0x04` and `0x02` in every byte and hence select exactly the corresponding
orientation bit of every edge byte. -/
theorem edge_byte_layout_amended :
    ∀ (s : EdgeCubieCube) (k : Fin 12),
      encodeEdgeByte (s k) / 16 = (s k).id.val ∧
      Nat.testBit (encodeEdgeByte (s k)) 3 = !(s k).oriented_ud ∧
      Nat.testBit (encodeEdgeByte (s k)) 2 = !(s k).oriented_fb ∧
      Nat.testBit (encodeEdgeByte (s k)) 1 = !(s k).oriented_rl ∧
      Nat.testBit (encodeEdgeByte (s k)) 0 = false ∧
      (∀ j : Fin 8,
        (EdgeCubieCube.BAD_EDGE_MASK_UD >>> (8 * j.val)) % 256 = 8 ∧
        (EdgeCubieCube.BAD_EDGE_MASK_FB >>> (8 * j.val)) % 256 = 4 ∧
        (EdgeCubieCube.BAD_EDGE_MASK_RL >>> (8 * j.val)) % 256 = 2) := by
  intro s k
  have ha : ∀ e : Edge,
      encodeEdgeByte e / 16 = e.id.val ∧
      Nat.testBit (encodeEdgeByte e) 3 = !e.oriented_ud ∧
      Nat.testBit (encodeEdgeByte e) 2 = !e.oriented_fb ∧
      Nat.testBit (encodeEdgeByte e) 1 = !e.oriented_rl ∧
      Nat.testBit (encodeEdgeByte e) 0 = false := by decide
  have hm : ∀ j : Fin 8,
      (EdgeCubieCube.BAD_EDGE_MASK_UD >>> (8 * j.val)) % 256 = 8 ∧
      (EdgeCubieCube.BAD_EDGE_MASK_FB >>> (8 * j.val)) % 256 = 4 ∧
      (EdgeCubieCube.BAD_EDGE_MASK_RL >>> (8 * j.val)) % 256 = 2 := by decide
  obtain ⟨h1, h2, h3, h4, h5⟩ := ha (s k)
  exact ⟨h1, h2, h3, h4, h5, hm⟩

/-- Any `ok` result of `from_step_config_fr` carries exactly the options
record `finishOptionsOf`. -/
theorem from_step_config_fr_opts (cfg : StepConfig) (st : Step333)
    (opts : DefaultStepOptions) (h : from_step_config_fr cfg = .ok (st, opts)) :
    opts = finishOptionsOf cfg := by
  unfold from_step_config_fr at h
  split at h
  · exact Except.noConfusion h
  · injection h with h1
    injection h1 with h2 h3
    rw [← h3]
    rfl

/-- Any `ok` result of `from_step_config_fr_leave_slice` carries exactly the
options record `finishOptionsOf`. -/
theorem from_step_config_fr_leave_slice_opts (cfg : StepConfig) (st : Step333)
    (opts : DefaultStepOptions)
    (h : from_step_config_fr_leave_slice cfg = .ok (st, opts)) :
    opts = finishOptionsOf cfg := by
  unfold from_step_config_fr_leave_slice at h
  split at h
  · exact Except.noConfusion h
  · injection h with h1
    injection h1 with h2 h3
    rw [← h3]
    rfl

/-- Any `ok` result of `from_step_config_htr` carries exactly the options
record `finishOptionsOf`. -/
theorem from_step_config_htr_opts (cfg : StepConfig) (st : Step333)
    (opts : DefaultStepOptions) (h : from_step_config_htr cfg = .ok (st, opts)) :
    opts = finishOptionsOf cfg := by
  unfold from_step_config_htr at h
  injection h with h1
  injection h1 with h2 h3
  rw [← h3]
  rfl

/-- The default fields of `finishOptionsOf` on a config without explicit
values. -/
theorem finishOptionsOf_defaults (cfg : StepConfig)
    (hmin : cfg.min = none) (hmax : cfg.max = none)
    (hsl : cfg.step_limit = none) (hq : 0 < cfg.quality) :
    (finishOptionsOf cfg).min = 0 ∧ (finishOptionsOf cfg).max = 10 ∧
    (finishOptionsOf cfg).niss_type = NissSwitchType.Never ∧
    (finishOptionsOf cfg).step_limit = some (cfg.quality * 1) := by
  have hne : ¬ cfg.quality = 0 := by omega
  unfold finishOptionsOf DefaultStepOptions.new
  simp [hmin, hmax, hsl, hne, Option.or]

/-- The step-limit field of `finishOptionsOf`: `none` when `quality = 0`, the
explicit `step_limit` when one is present. -/
theorem finishOptionsOf_limit (cfg : StepConfig) :
    (cfg.quality = 0 → (finishOptionsOf cfg).step_limit = none) ∧
    (∀ n, 0 < cfg.quality → cfg.step_limit = some n →
      (finishOptionsOf cfg).step_limit = some n) := by
  constructor
  · intro hq0
    unfold finishOptionsOf DefaultStepOptions.new
    simp [hq0]
  · intro n hq hn
    have hne : ¬ cfg.quality = 0 := by omega
    unfold finishOptionsOf DefaultStepOptions.new
    simp [hne, hn, Option.or]

/-- Claim C7: `from_step_config_fr`, `from_step_config_fr_leave_slice` and
`from_step_config_htr` build the step options with the defaults `min = 0`
when `config.min` is absent, `max = 10` when `config.max` is absent, NISS
switch type `Never`, and step limit `quality × 1` when `quality > 0` (and no
explicit step limit is configured). -/
theorem from_step_config_defaults (cfg : StepConfig)
    (hmin : cfg.min = none) (hmax : cfg.max = none)
    (hsl : cfg.step_limit = none) (hq : 0 < cfg.quality) :
    (∀ st opts, from_step_config_fr cfg = .ok (st, opts) →
      opts.min = 0 ∧ opts.max = 10 ∧ opts.niss_type = NissSwitchType.Never ∧
      opts.step_limit = some (cfg.quality * 1)) ∧
    (∀ st opts, from_step_config_fr_leave_slice cfg = .ok (st, opts) →
      opts.min = 0 ∧ opts.max = 10 ∧ opts.niss_type = NissSwitchType.Never ∧
      opts.step_limit = some (cfg.quality * 1)) ∧
    (∀ st opts, from_step_config_htr cfg = .ok (st, opts) →
      opts.min = 0 ∧ opts.max = 10 ∧ opts.niss_type = NissSwitchType.Never ∧
      opts.step_limit = some (cfg.quality * 1)) := by
  refine ⟨fun st opts h => ?_, fun st opts h => ?_, fun st opts h => ?_⟩
  · rw [from_step_config_fr_opts cfg st opts h]
    exact finishOptionsOf_defaults cfg hmin hmax hsl hq
  · rw [from_step_config_fr_leave_slice_opts cfg st opts h]
    exact finishOptionsOf_defaults cfg hmin hmax hsl hq
  · rw [from_step_config_htr_opts cfg st opts h]
    exact finishOptionsOf_defaults cfg hmin hmax hsl hq

/-- Witness for claim C7: a config with no explicit bounds and quality 3. -/
theorem from_step_config_defaults_witness :
    (DefaultStepOptions.mk 0 10 none none NissSwitchType.Never (some 3)).min = 0 ∧
    (DefaultStepOptions.mk 0 10 none none NissSwitchType.Never (some 3)).max = 10 ∧
    (DefaultStepOptions.mk 0 10 none none NissSwitchType.Never (some 3)).niss_type =
      NissSwitchType.Never ∧
    (DefaultStepOptions.mk 0 10 none none NissSwitchType.Never (some 3)).step_limit =
      some ((⟨none, none, none, none, none, none, none, 3⟩ : StepConfig).quality * 1) :=
  (from_step_config_defaults ⟨none, none, none, none, none, none, none, 3⟩
      rfl rfl rfl (by decide)).2.2 htr_finish
    (DefaultStepOptions.mk 0 10 none none NissSwitchType.Never (some 3)) rfl

/-- Claim C9: in the three `from_step_config_*` functions, `quality = 0`
forces an unlimited step limit regardless of `config.step_limit`, and with
`quality > 0` an explicit `step_limit = Some n` takes precedence over the
quality-derived default. -/
theorem step_limit_quality_precedence (cfg : StepConfig) :
    (∀ st opts, from_step_config_fr cfg = .ok (st, opts) →
      (cfg.quality = 0 → opts.step_limit = none) ∧
      (∀ n, 0 < cfg.quality → cfg.step_limit = some n → opts.step_limit = some n)) ∧
    (∀ st opts, from_step_config_fr_leave_slice cfg = .ok (st, opts) →
      (cfg.quality = 0 → opts.step_limit = none) ∧
      (∀ n, 0 < cfg.quality → cfg.step_limit = some n → opts.step_limit = some n)) ∧
    (∀ st opts, from_step_config_htr cfg = .ok (st, opts) →
      (cfg.quality = 0 → opts.step_limit = none) ∧
      (∀ n, 0 < cfg.quality → cfg.step_limit = some n → opts.step_limit = some n)) := by
  refine ⟨fun st opts h => ?_, fun st opts h => ?_, fun st opts h => ?_⟩
  · rw [from_step_config_fr_opts cfg st opts h]
    exact finishOptionsOf_limit cfg
  · rw [from_step_config_fr_leave_slice_opts cfg st opts h]
    exact finishOptionsOf_limit cfg
  · rw [from_step_config_htr_opts cfg st opts h]
    exact finishOptionsOf_limit cfg

/-- Witness for claim C9: an explicit step limit of 7 beats quality 5. -/
theorem step_limit_quality_precedence_witness :
    (DefaultStepOptions.mk 0 10 none none NissSwitchType.Never (some 7)).step_limit =
      some 7 :=
  ((step_limit_quality_precedence ⟨none, none, none, none, none, none, some 7, 5⟩).2.2
      htr_finish (DefaultStepOptions.mk 0 10 none none NissSwitchType.Never (some 7))
      rfl).2 7 (by decide) rfl

/-- Either `axisOfStr` recognises the entry, or it fails with the message
naming the lowercased entry. -/
theorem axisOfStr_cases (s : String) :
    (∃ a, axisOfStr s = .ok a) ∨
      axisOfStr s = .error ("Invalid HTR substep " ++ strToLower s) := by
  unfold axisOfStr
  split
  all_goals first
    | exact Or.inl ⟨_, rfl⟩
    | exact Or.inr rfl

/-- An unrecognised substep makes `axisOfStr` return the error message naming
the (lowercased) entry. -/
theorem axisOfStr_error_msg (s : String) (h : isOkAxis (axisOfStr s) = false) :
    axisOfStr s = .error ("Invalid HTR substep " ++ strToLower s) := by
  rcases axisOfStr_cases s with ⟨a, ha⟩ | he
  · rw [ha] at h
    exact absurd h (by simp [isOkAxis])
  · exact he

/-- A substeps list containing an unrecognised entry makes `parseAxes` fail
with the message naming one such entry. -/
theorem parseAxes_error (l : List String)
    (h : ∃ s ∈ l, isOkAxis (axisOfStr s) = false) :
    ∃ s ∈ l, isOkAxis (axisOfStr s) = false ∧
      parseAxes l = .error ("Invalid HTR substep " ++ strToLower s) := by
  induction l with
  | nil =>
    obtain ⟨s, hs, _⟩ := h
    simp at hs
  | cons a rest ih =>
    cases hres : isOkAxis (axisOfStr a) with
    | false =>
      refine ⟨a, by simp, hres, ?_⟩
      have he := axisOfStr_error_msg a hres
      simp [parseAxes, he]
    | true =>
      obtain ⟨s, hs, hbad⟩ := h
      have hs' : s ∈ rest := by
        rcases List.mem_cons.mp hs with h1 | h1
        · rw [h1] at hbad
          rw [hbad] at hres
          exact Bool.noConfusion hres
        · exact h1
      obtain ⟨s', hs'', hbad', heq⟩ := ih ⟨s, hs', hbad⟩
      refine ⟨s', List.mem_cons_of_mem a hs'', hbad', ?_⟩
      have hax : ∃ ax, axisOfStr a = .ok ax := by
        cases hr : axisOfStr a with
        | ok ax => exact ⟨ax, rfl⟩
        | error e =>
          rw [hr] at hres
          simp [isOkAxis] at hres
      obtain ⟨ax, hax⟩ := hax
      simp [parseAxes, hax, heq]

/-- A substeps list of recognised entries parses to the matching axis list. -/
theorem parseAxes_ok (l : List String)
    (h : ∀ s ∈ l, isOkAxis (axisOfStr s) = true) :
    ∃ axes, parseAxes l = .ok axes ∧
      List.Forall₂ (fun s a => axisOfStr s = .ok a) l axes := by
  induction l with
  | nil => exact ⟨[], rfl, List.Forall₂.nil⟩
  | cons a rest ih =>
    have ha := h a (by simp)
    have hax : ∃ ax, axisOfStr a = .ok ax := by
      cases hr : axisOfStr a with
      | ok ax => exact ⟨ax, rfl⟩
      | error e =>
        rw [hr] at ha
        simp [isOkAxis] at ha
    obtain ⟨ax, hax⟩ := hax
    obtain ⟨axes, hp, hf⟩ := ih (fun s hs => h s (List.mem_cons_of_mem a hs))
    exact ⟨ax :: axes, by simp [parseAxes, hax, hp], List.Forall₂.cons hax hf⟩

/-- Claim C8: for every substeps list given to `from_step_config_fr`, an entry
matching none of the recognised axis names (case-insensitively) makes the
function return `Err` with a message naming that substep (as lowercased by
the very match that rejected it), while a list of recognised entries yields
`Ok` with a step covering exactly the named axes, in order. -/
theorem from_step_config_fr_substeps (cfg : StepConfig) (l : List String)
    (hsub : cfg.substeps = some l) :
    ((∃ s ∈ l, isOkAxis (axisOfStr s) = false) →
      ∃ s ∈ l, isOkAxis (axisOfStr s) = false ∧
        from_step_config_fr cfg = .error ("Invalid HTR substep " ++ strToLower s)) ∧
    ((∀ s ∈ l, isOkAxis (axisOfStr s) = true) →
      ∃ axes, List.Forall₂ (fun s a => axisOfStr s = .ok a) l axes ∧
        from_step_config_fr cfg = .ok (fr_finish axes, finishOptionsOf cfg) ∧
        (fr_finish axes).step_variants = axes.map frVariant) := by
  constructor
  · intro h
    obtain ⟨s, hs, hbad, heq⟩ := parseAxes_error l h
    refine ⟨s, hs, hbad, ?_⟩
    unfold from_step_config_fr
    rw [hsub]
    simp only [heq, Except.map]
  · intro h
    obtain ⟨axes, hp, hf⟩ := parseAxes_ok l h
    refine ⟨axes, hf, ?_, rfl⟩
    unfold from_step_config_fr
    rw [hsub]
    simp only [hp, Except.map]
    rfl

/-- Witness for claim C8: the unrecognised substep `"xyz"` is rejected with
the message naming it. -/
theorem from_step_config_fr_substeps_witness :
    from_step_config_fr ⟨some ["xyz"], none, none, none, none, none, none, 1⟩ =
      .error ("Invalid HTR substep " ++ strToLower "xyz") := by
  obtain ⟨s, hs, hbad, heq⟩ :=
    (from_step_config_fr_substeps
      ⟨some ["xyz"], none, none, none, none, none, none, 1⟩ ["xyz"] rfl).1
      ⟨"xyz", by simp, by decide⟩
  have hs' : s = "xyz" := by simpa using hs
  rw [hs'] at heq
  exact heq

/-- Witness for claim C4: the solved cube is `eq` to itself via bitwise
equality of both packed vectors. -/
theorem eq_iff_packed_bitwise_witness :
    CubieCube.eq CubieCube.new_solved CubieCube.new_solved :=
  (eq_iff_packed_bitwise CubieCube.new_solved CubieCube.new_solved).mpr
    ⟨fun _ => rfl, fun _ => rfl⟩

/-- Witness for claim C6: after a clockwise U turn, a clockwise D turn is
permitted (the ordering forbids the other direction only). -/
theorem finish_transitions_allowed_iff_witness :
    Nat.testBit (finish_transitions (Move.to_id ⟨.Up, .Clockwise⟩)).allowed
      (Move.to_id ⟨.Down, .Clockwise⟩).val = true :=
  (finish_transitions_allowed_iff ⟨.Up, .Clockwise⟩ ⟨.Down, .Clockwise⟩).mpr
    (by decide)
